import Mathlib

/-
Verification of the RPLidar live-scan pipeline (RPLidar.py).

The script's floating-point coordinates are modelled as rationals (ℚ) for the
pure in-memory computations (clustering, buffer, movement detection, pixel
labels), and as reals (ℝ) where the code calls trigonometric functions
(the polar-to-Cartesian coordinate transform).

Embedded pieces of `live_scan_and_plot` and its helper `_cluster_points`:
  * `cluster_points`   — the greedy clustering loop (`_cluster_points`);
  * `appendBounded`    — `points = deque(maxlen=buffer_max)` append semantics;
  * `evict`            — the TTL purge `while points and points[0][0] < cutoff`;
  * `movement_markers` — the movement-detection loop over current centers;
  * `frame_step`       — the per-frame update of `prev_centers` and markers;
  * `transform_sample` — the per-sample filter/convert/bounds-check block;
  * `pixel_label`      — the meters-to-pixel label quantization;
  * `handle_acq_error` — the `except RPLidarException` recovery branch.
-/

/-- A planar point in meters, `(x, y)`. -/
abbrev Pt : Type := ℚ × ℚ

/-- Squared Euclidean distance, exactly as the script computes it:
`(x - cx) * (x - cx) + (y - cy) * (y - cy)`. -/
def sqDist (a b : Pt) : ℚ :=
  (a.1 - b.1) * (a.1 - b.1) + (a.2 - b.2) * (a.2 - b.2)

/-- A cluster accumulator, the script's `[sum_x, sum_y, count]` list. -/
structure CAcc where
  sx : ℚ
  sy : ℚ
  n  : ℕ

/-- Running centroid of an accumulator: `(c[0] / c[2], c[1] / c[2])`. -/
def CAcc.centroid (c : CAcc) : Pt :=
  (c.sx / (c.n : ℚ), c.sy / (c.n : ℚ))

/-- Merging a point into an accumulator: `c[0] += x; c[1] += y; c[2] += 1`. -/
def CAcc.merge (c : CAcc) (p : Pt) : CAcc :=
  { sx := c.sx + p.1, sy := c.sy + p.2, n := c.n + 1 }

/-- The inner `for c in clusters` loop of `_cluster_points`: scan the
accumulators in creation order and merge the point into the first one whose
running centroid is within squared distance `r2`, stopping there (`break`);
`none` when no accumulator is within range (`placed` stays false). -/
def placeInto (r2 x y : ℚ) : List CAcc → Option (List CAcc)
  | [] => none
  | c :: rest =>
    if sqDist (x, y) c.centroid ≤ r2 then
      some (c.merge (x, y) :: rest)
    else
      (placeInto r2 x y rest).map (c :: ·)

/-- One iteration of the `for x, y in points_arr` loop of `_cluster_points`:
place the point into the first in-range accumulator, or append a fresh
accumulator `[x, y, 1]` when none is in range. -/
def cluster_step (r2 : ℚ) (cs : List CAcc) (p : Pt) : List CAcc :=
  match placeInto r2 p.1 p.2 cs with
  | some cs2 => cs2
  | none => cs ++ [{ sx := p.1, sy := p.2, n := 1 }]

/-- The accumulator list built by `_cluster_points` over the whole input,
with `r2 = radius * radius`. -/
def clusterAccs (pts : List Pt) (radius : ℚ) : List CAcc :=
  pts.foldl (cluster_step (radius * radius)) []

/-- The full `_cluster_points(points_arr, radius)`: returns `(centers, counts)`
where `centers = [[c[0]/c[2], c[1]/c[2]] for c in clusters]` and
`counts = [c[2] for c in clusters]`. -/
def cluster_points (pts : List Pt) (radius : ℚ) : List Pt × List ℕ :=
  ((clusterAccs pts radius).map CAcc.centroid,
   (clusterAccs pts radius).map CAcc.n)

/-- Replace the accumulator at position `i` by its merge with `p`
(out-of-range indices leave the list unchanged). -/
def mergeAt : List CAcc → ℕ → Pt → List CAcc
  | [], _, _ => []
  | c :: rest, 0, p => c.merge p :: rest
  | c :: rest, i + 1, p => c :: mergeAt rest i p

/-- One step of the clustering loop as the specification words it: the point
merges into the earliest-created accumulator whose running centroid is within
squared distance `r2`; a new accumulator starts only when none is in range. -/
def cluster_step_firstFit (r2 : ℚ) (cs : List CAcc) (p : Pt) : List CAcc :=
  match cs.findIdx? (fun c => decide (sqDist p c.centroid ≤ r2)) with
  | some i => mergeAt cs i p
  | none => cs ++ [{ sx := p.1, sy := p.2, n := 1 }]

/-- First index attaining the minimum squared distance from `p` to a running
centroid, together with that minimum; ties resolve to the earlier accumulator. -/
def nearestIdx (p : Pt) : List CAcc → Option (ℕ × ℚ)
  | [] => none
  | c :: rest =>
    match nearestIdx p rest with
    | none => some (0, sqDist p c.centroid)
    | some (i, d) =>
      if sqDist p c.centroid ≤ d then some (0, sqDist p c.centroid)
      else some (i + 1, d)

/-- One step of the clustering loop as claim C1 words it: the point merges into
the accumulator whose running centroid is nearest (squared-distance comparison,
ties to the earliest-created), provided that nearest centroid is within range;
otherwise a new accumulator starts. -/
def cluster_step_nearest (r2 : ℚ) (cs : List CAcc) (p : Pt) : List CAcc :=
  match nearestIdx p cs with
  | none => cs ++ [{ sx := p.1, sy := p.2, n := 1 }]
  | some (i, d) =>
    if d ≤ r2 then mergeAt cs i p
    else cs ++ [{ sx := p.1, sy := p.2, n := 1 }]

/-- The nearest-centroid clustering that claim C1 describes, as a whole. -/
def cluster_points_nearest (pts : List Pt) (radius : ℚ) : List Pt × List ℕ :=
  let cs := pts.foldl (cluster_step_nearest (radius * radius)) []
  (cs.map CAcc.centroid, cs.map CAcc.n)

/-- A buffered point, the script's `(t, x_plot, y_plot)` triple. -/
structure TPoint where
  t : ℚ
  x : ℚ
  y : ℚ

/-- Appending to `points = deque(maxlen=m)`: the new element goes to the tail
and the head is dropped when the deque is full (for `m = 0` the deque stays
empty). -/
def appendBounded (m : ℕ) (buf : List TPoint) (p : TPoint) : List TPoint :=
  ((buf ++ [p])).drop ((buf ++ [p]).length - m)

/-- The purge loop `while points and points[0][0] < cutoff: points.popleft()`. -/
def evictWhile (cutoff : ℚ) : List TPoint → List TPoint
  | [] => []
  | p :: rest => if p.t < cutoff then evictWhile cutoff rest else p :: rest

/-- TTL eviction: `cutoff = now - point_ttl_s`, then pop stale heads. -/
def evict (now ttl : ℚ) (buf : List TPoint) : List TPoint :=
  evictWhile (now - ttl) buf

/-- A movement marker: the script's `(Circle((c[0], c[1]), ...), expire_time)`
pair, reduced to the circle's center and its expiry instant. -/
structure Marker where
  pos    : Pt
  expiry : ℚ

/-- Minimum squared distance from `c` to a list of previous centers, the
script's `np.min(np.sum((prev_centers - c) ** 2, axis=1))`; `0` for an empty
list (the script never takes the minimum over an empty array). -/
def minSqTo (c : Pt) : List Pt → ℚ
  | [] => 0
  | [p] => sqDist c p
  | p :: q :: rest => min (sqDist c p) (minSqTo c (q :: rest))

/-- The movement-detection loop: for each current center `c`, the script finds
the nearest previous center and emits a green circle at `c` expiring at
`now + MOVEMENT_CIRCLE_TTL` when `dist >= MOVEMENT_DETECT_DIST`.  The code
compares `math.sqrt(d) >= thr`; since the threshold constant `0.01` is
non-negative this equals `thr * thr <= d`, which keeps the test computable
here.  The surrounding guard skips the loop entirely when `prev_centers` is
empty. -/
def movement_markers (now thr ttl : ℚ) (prev centers : List Pt) : List Marker :=
  if prev = [] then []
  else
    (centers.filter (fun c => decide (thr * thr ≤ minSqTo c prev))).map
      (fun c => { pos := c, expiry := now + ttl })

/-- The per-frame movement-state update around the detection loop:
`prev_centers` is `none` initially and after any frame without clusters; a
frame with centers emits markers only when the previous list exists and is
non-empty, and always replaces `prev_centers` with the current centers. -/
def frame_step (now thr ttl : ℚ) (prev : Option (List Pt)) (centers : List Pt) :
    Option (List Pt) × List Marker :=
  if centers = [] then (none, [])
  else
    match prev with
    | none => (some centers, [])
    | some pcs =>
      if pcs = [] then (some centers, [])
      else (some centers, movement_markers now thr ttl pcs centers)

open Classical in
/-- The per-sample block of the scan loop: skip when the angle is outside
`[angle_min_deg, angle_max_deg]`, skip when `dist_mm == 0`, convert
`r = dist_mm / 1000`, `theta = math.radians(angle_deg)`,
`x = r * cos(theta) + offset_x`, `y = r * sin(theta) + offset_y`, and keep the
point only when `0 <= x <= span_x` and `0 <= y <= span_y`. -/
noncomputable def transform_sample (ox oy amin amax spanX spanY angle dist : ℝ) :
    Option (ℝ × ℝ) :=
  if ¬ (amin ≤ angle ∧ angle ≤ amax) then none
  else if dist = 0 then none
  else
    if 0 ≤ dist / 1000 * Real.cos (angle * (Real.pi / 180)) + ox ∧
       dist / 1000 * Real.cos (angle * (Real.pi / 180)) + ox ≤ spanX ∧
       0 ≤ dist / 1000 * Real.sin (angle * (Real.pi / 180)) + oy ∧
       dist / 1000 * Real.sin (angle * (Real.pi / 180)) + oy ≤ spanY then
      some (dist / 1000 * Real.cos (angle * (Real.pi / 180)) + ox,
            dist / 1000 * Real.sin (angle * (Real.pi / 180)) + oy)
    else none

/-- The label quantization for one axis:
`px = int(math.floor((c / panel_size) * panel_pixels))` followed by
`px = max(0, min(px, total_pixels - 1))` with `total_pixels = panels * panel_pixels`. -/
def pixel_label (meters panelSize : ℚ) (panelPixels panels : ℕ) : ℤ :=
  max 0 (min ⌊meters / panelSize * (panelPixels : ℚ)⌋
             ((panels : ℤ) * (panelPixels : ℤ) - 1))

/-- Substring test on character lists, modelling Python's `needle in hay`. -/
def containsSub : List Char → List Char → Bool
  | hay@(_ :: t), needle => needle.isPrefixOf hay || containsSub t needle
  | [], needle => needle.isEmpty

/-- The recoverability test of the `except RPLidarException` handler:
`'Wrong body size' in msg or 'wrong body size' in msg.lower()`. -/
def is_wrong_body_size (msg : String) : Bool :=
  containsSub msg.toList "Wrong body size".toList ||
  containsSub (msg.toList.map Char.toLower) "wrong body size".toList

/-- The mutable state of the live-scan session that the error handler can see:
the point deque, `prev_centers`, the movement patches, and the stop flag. -/
structure SessionState where
  points      : List TPoint
  prevCenters : Option (List Pt)
  markers     : List Marker
  stopFlag    : Bool

/-- What the handler does next: retry the scan loop after `time.sleep(0.05)`
(`continue`), or end the session (`stop_event.set()` then `break`). -/
inductive AcqReaction where
  | resumeAfterBackoff : AcqReaction
  | endSession : AcqReaction

/-- The `except RPLidarException as e` branch of the scan loop: on a
wrong-body-size message, flush the serial buffer, back off briefly and resume
with all in-memory state untouched; on any other message, set the stop flag
and leave the loop. -/
def handle_acq_error (st : SessionState) (msg : String) :
    SessionState × AcqReaction :=
  if is_wrong_body_size msg then
    (st, AcqReaction.resumeAfterBackoff)
  else
    ({ st with stopFlag := true }, AcqReaction.endSession)

/-- Every point surviving the purge loop has a timestamp at or after the cutoff,
when timestamps are non-decreasing along the buffer. -/
theorem evictWhile_ge (cutoff : ℚ) :
    ∀ buf : List TPoint, buf.Pairwise (fun a b => a.t ≤ b.t) →
      ∀ p ∈ evictWhile cutoff buf, cutoff ≤ p.t := by
  intro buf
  induction buf with
  | nil => intro _ p hp; simp [evictWhile] at hp
  | cons q rest ih =>
    intro hb p hp
    rw [List.pairwise_cons] at hb
    unfold evictWhile at hp
    by_cases h : q.t < cutoff
    · rw [if_pos h] at hp
      exact ih hb.2 p hp
    · rw [if_neg h] at hp
      rcases List.mem_cons.mp hp with rfl | hmem
      · exact not_lt.mp h
      · exact le_trans (not_lt.mp h) (hb.1 p hmem)

/-- C2 (amended): for a buffer with non-decreasing timestamps, every point
remaining immediately after `evict(now, ttl)` satisfies `now - p.t ≤ ttl`
(the inequality is not strict: a point aged exactly `ttl` is retained). -/
theorem evict_ttl_le (now ttl : ℚ) (buf : List TPoint)
    (hb : buf.Pairwise (fun a b => a.t ≤ b.t)) :
    ∀ p ∈ evict now ttl buf, now - p.t ≤ ttl := by
  intro p hp
  have := evictWhile_ge (now - ttl) buf hb p hp
  linarith

/-- Witness for `evict_ttl_le` at a concrete buffer. -/
theorem evict_ttl_le_witness :
    (1 : ℚ) - ({ t := 0, x := 0, y := 0 } : TPoint).t ≤ 1 :=
  evict_ttl_le 1 1 [{ t := 0, x := 0, y := 0 }] (by simp)
    { t := 0, x := 0, y := 0 } (by norm_num [evict, evictWhile])

/-- C2 fails as stated: a point whose age equals `ttl` exactly survives
eviction, so the strict bound `now - p.t < ttl` does not hold for it. -/
theorem evict_ttl_strict_counterexample :
    ([{ t := 0, x := 0, y := 0 }] : List TPoint).Pairwise (fun a b => a.t ≤ b.t) ∧
    ({ t := 0, x := 0, y := 0 } : TPoint) ∈ evict 1 1 [{ t := 0, x := 0, y := 0 }] ∧
    ¬ ((1 : ℚ) - ({ t := 0, x := 0, y := 0 } : TPoint).t < 1) :=
  ⟨by simp, by norm_num [evict, evictWhile], by norm_num⟩

/-- Length of one bounded append: the deque grows by one up to the cap `m`. -/
theorem appendBounded_length (m : ℕ) (buf : List TPoint) (p : TPoint) :
    (appendBounded m buf p).length = min (buf.length + 1) m := by
  simp [appendBounded]
  omega

/-- C4: under any sequence of appends starting from the empty deque the length
never exceeds the cap, and an append to a full deque drops the head first. -/
theorem appendBounded_capacity (m : ℕ) :
    (∀ ps : List TPoint, (ps.foldl (appendBounded m) []).length ≤ m) ∧
    (∀ (buf : List TPoint) (p : TPoint), buf.length = m → 1 ≤ m →
      appendBounded m buf p = buf.tail ++ [p]) := by
  constructor
  · have key : ∀ (ps : List TPoint) (buf : List TPoint), buf.length ≤ m →
        (ps.foldl (appendBounded m) buf).length ≤ m := by
      intro ps
      induction ps with
      | nil => intro buf h; simpa using h
      | cons p rest ih =>
        intro buf _
        rw [List.foldl_cons]
        exact ih (appendBounded m buf p) (by rw [appendBounded_length]; omega)
    intro ps
    exact key ps [] (by simp)
  · intro buf p hlen hm
    unfold appendBounded
    have h1 : (buf ++ [p]).length - m = 1 := by
      simp [List.length_append, hlen]
    rw [h1]
    cases buf with
    | nil => exfalso; simp at hlen; omega
    | cons b bs => simp

/-- Witness for `appendBounded_capacity` at cap 1: the second append evicts the
first point. -/
theorem appendBounded_capacity_witness :
    (([{ t := 0, x := 0, y := 0 }, { t := 1, x := 1, y := 1 }] : List TPoint).foldl
        (appendBounded 1) []).length ≤ 1 ∧
    appendBounded 1 [{ t := 0, x := 0, y := 0 }] { t := 1, x := 1, y := 1 } =
      ([{ t := 0, x := 0, y := 0 }] : List TPoint).tail ++ [{ t := 1, x := 1, y := 1 }] :=
  ⟨(appendBounded_capacity 1).1 [{ t := 0, x := 0, y := 0 }, { t := 1, x := 1, y := 1 }],
   (appendBounded_capacity 1).2 [{ t := 0, x := 0, y := 0 }] { t := 1, x := 1, y := 1 }
     rfl (by decide)⟩

/-- C9: the per-axis pixel label is the clamp of `floor(meters / panel_size *
panel_pixels)` into `[0, total_pixels - 1]`, and it always lands in that range
when the grid has at least one pixel. -/
theorem pixel_label_clamp (meters panelSize : ℚ) (panelPixels panels : ℕ)
    (h : 1 ≤ panels * panelPixels) :
    pixel_label meters panelSize panelPixels panels =
      min ((panels : ℤ) * (panelPixels : ℤ) - 1)
          (max 0 ⌊meters / panelSize * (panelPixels : ℚ)⌋) ∧
    0 ≤ pixel_label meters panelSize panelPixels panels ∧
    pixel_label meters panelSize panelPixels panels ≤
      (panels : ℤ) * (panelPixels : ℤ) - 1 := by
  have hT : (1 : ℤ) ≤ (panels : ℤ) * (panelPixels : ℤ) := by exact_mod_cast h
  unfold pixel_label
  omega

/-- Witness for `pixel_label_clamp` on the default 2-panel, 128-pixel grid. -/
theorem pixel_label_clamp_witness :
    pixel_label (3/4) (1/2) 128 2 =
      min ((2 : ℤ) * (128 : ℤ) - 1) (max 0 ⌊(3/4 : ℚ) / (1/2) * (128 : ℚ)⌋) ∧
    0 ≤ pixel_label (3/4) (1/2) 128 2 ∧
    pixel_label (3/4) (1/2) 128 2 ≤ (2 : ℤ) * (128 : ℤ) - 1 :=
  pixel_label_clamp (3/4) (1/2) 128 2 (by decide)

/-- C8: a wrong-body-size acquisition error leaves the whole session state
untouched and resumes after a backoff; any other acquisition error sets the
stop flag and ends the session. -/
theorem handle_acq_error_spec (st : SessionState) (msg : String) :
    (is_wrong_body_size msg = true →
       handle_acq_error st msg = (st, AcqReaction.resumeAfterBackoff)) ∧
    (is_wrong_body_size msg = false →
       (handle_acq_error st msg).1.points = st.points ∧
       (handle_acq_error st msg).1.prevCenters = st.prevCenters ∧
       (handle_acq_error st msg).1.markers = st.markers ∧
       (handle_acq_error st msg).1.stopFlag = true ∧
       (handle_acq_error st msg).2 = AcqReaction.endSession) := by
  unfold handle_acq_error
  by_cases hw : is_wrong_body_size msg <;> simp [hw]

/-- Witness for `handle_acq_error_spec`: one recoverable and one fatal message. -/
theorem handle_acq_error_spec_witness :
    handle_acq_error ⟨[], none, [], false⟩ "Wrong body size 84" =
      (⟨[], none, [], false⟩, AcqReaction.resumeAfterBackoff) ∧
    (handle_acq_error ⟨[], none, [], false⟩ "timeout").1.stopFlag = true :=
  ⟨(handle_acq_error_spec ⟨[], none, [], false⟩ "Wrong body size 84").1 (by decide),
   ((handle_acq_error_spec ⟨[], none, [], false⟩ "timeout").2 (by decide)).2.2.2.1⟩

/-- C10: a frame without clusters resets `prev_centers` to none, and the next
frame that does yield clusters emits no movement markers. -/
theorem frame_step_reset (now thr ttl : ℚ) :
    (∀ prev : Option (List Pt), frame_step now thr ttl prev [] = (none, [])) ∧
    (∀ centers : List Pt, centers ≠ [] →
       frame_step now thr ttl none centers = (some centers, [])) := by
  constructor
  · intro prev; simp [frame_step]
  · intro centers hc; simp [frame_step, hc]

/-- Witness for `frame_step_reset` on a concrete empty frame followed by a
frame with one far-away center. -/
theorem frame_step_reset_witness :
    frame_step 0 0 0 (some [((0 : ℚ), (0 : ℚ))]) [] = (none, []) ∧
    frame_step 0 0 0 none [((9 : ℚ), (9 : ℚ))] = (some [((9 : ℚ), (9 : ℚ))], []) :=
  ⟨(frame_step_reset 0 0 0).1 (some [(0, 0)]),
   (frame_step_reset 0 0 0).2 [(9, 9)] (List.cons_ne_nil _ _)⟩

/-- Total member count across an accumulator list. -/
def countSum (cs : List CAcc) : ℕ := (cs.map CAcc.n).sum

/-- Placing a point into an existing accumulator adds exactly one member. -/
theorem placeInto_countSum (r2 x y : ℚ) :
    ∀ cs cs' : List CAcc, placeInto r2 x y cs = some cs' →
      countSum cs' = countSum cs + 1 := by
  intro cs
  induction cs with
  | nil => intro cs' h; simp [placeInto] at h
  | cons c rest ih =>
    intro cs' h
    unfold placeInto at h
    by_cases hc : sqDist (x, y) c.centroid ≤ r2
    · rw [if_pos hc] at h
      injection h with h2
      subst h2
      simp [countSum, CAcc.merge]
      omega
    · rw [if_neg hc] at h
      rw [Option.map_eq_some'] at h
      obtain ⟨ds, hds, rfl⟩ := h
      have := ih ds hds
      simp [countSum] at this ⊢
      omega

/-- Placing a point into an existing accumulator keeps every member count
at least one. -/
theorem placeInto_counts_pos (r2 x y : ℚ) :
    ∀ cs cs' : List CAcc, placeInto r2 x y cs = some cs' →
      (∀ c ∈ cs, 1 ≤ c.n) → ∀ c ∈ cs', 1 ≤ c.n := by
  intro cs
  induction cs with
  | nil => intro cs' h; simp [placeInto] at h
  | cons c rest ih =>
    intro cs' h hpos
    unfold placeInto at h
    by_cases hc : sqDist (x, y) c.centroid ≤ r2
    · rw [if_pos hc] at h
      injection h with h2
      subst h2
      intro d hd
      rcases List.mem_cons.mp hd with rfl | hm
      · simp [CAcc.merge]
      · exact hpos d (List.mem_cons_of_mem _ hm)
    · rw [if_neg hc] at h
      rw [Option.map_eq_some'] at h
      obtain ⟨ds, hds, rfl⟩ := h
      intro d hd
      rcases List.mem_cons.mp hd with rfl | hm
      · exact hpos d (List.mem_cons_self d rest)
      · exact ih ds hds (fun e he => hpos e (List.mem_cons_of_mem _ he)) d hm

/-- One clustering step adds exactly one member overall. -/
theorem cluster_step_countSum (r2 : ℚ) (cs : List CAcc) (p : Pt) :
    countSum (cluster_step r2 cs p) = countSum cs + 1 := by
  rcases h : placeInto r2 p.1 p.2 cs with _ | cs2
  · simp [cluster_step, h, countSum]
  · simp [cluster_step, h]
    exact placeInto_countSum r2 p.1 p.2 cs cs2 h

/-- One clustering step keeps every member count at least one. -/
theorem cluster_step_counts_pos (r2 : ℚ) (cs : List CAcc) (p : Pt)
    (hpos : ∀ c ∈ cs, 1 ≤ c.n) : ∀ c ∈ cluster_step r2 cs p, 1 ≤ c.n := by
  rcases h : placeInto r2 p.1 p.2 cs with _ | cs2
  · intro c hc
    simp [cluster_step, h] at hc
    rcases hc with hm | rfl
    · exact hpos c hm
    · simp
  · intro c hc
    simp [cluster_step, h] at hc
    exact placeInto_counts_pos r2 p.1 p.2 cs cs2 h hpos c hc

/-- Fold invariant of the clustering loop: total member count grows by the
number of points processed, and member counts stay at least one. -/
theorem clusterAccs_invariant (r2 : ℚ) :
    ∀ (pts : List Pt) (cs : List CAcc),
      countSum (pts.foldl (cluster_step r2) cs) = countSum cs + pts.length ∧
      ((∀ c ∈ cs, 1 ≤ c.n) → ∀ c ∈ pts.foldl (cluster_step r2) cs, 1 ≤ c.n) := by
  intro pts
  induction pts with
  | nil => intro cs; simp
  | cons p rest ih =>
    intro cs
    rw [List.foldl_cons]
    constructor
    · rw [(ih (cluster_step r2 cs p)).1, cluster_step_countSum]
      simp
      omega
    · intro hpos
      exact (ih _).2 (cluster_step_counts_pos r2 cs p hpos)

/-- C6: the clustering output is a partition of the input — every member
count is at least one and the member counts sum to the number of points. -/
theorem cluster_points_partition (pts : List Pt) (radius : ℚ) :
    (∀ k ∈ (cluster_points pts radius).2, 1 ≤ k) ∧
    (cluster_points pts radius).2.sum = pts.length := by
  have hinv := clusterAccs_invariant (radius * radius) pts []
  constructor
  · intro k hk
    simp [cluster_points] at hk
    obtain ⟨c, hc, rfl⟩ := hk
    exact hinv.2 (by simp) c hc
  · show ((clusterAccs pts radius).map CAcc.n).sum = pts.length
    have h0 : countSum (clusterAccs pts radius) = pts.length := by
      simpa [countSum, clusterAccs] using hinv.1
    simpa [countSum] using h0

/-- Witness for `cluster_points_partition` on a one-point input. -/
theorem cluster_points_partition_witness :
    1 ≤ 1 ∧
    (cluster_points [((0 : ℚ), (0 : ℚ))] 1).2.sum = [((0 : ℚ), (0 : ℚ))].length :=
  ⟨(cluster_points_partition [(0, 0)] 1).1 1
     (by simp [cluster_points, clusterAccs, cluster_step, placeInto]),
   (cluster_points_partition [(0, 0)] 1).2⟩

/-- Processing `n ≥ 1` copies of the same point yields one accumulator holding
all of them. -/
theorem clusterAccs_replicate (p : Pt) (ρ : ℚ) :
    ∀ n : ℕ, 1 ≤ n →
      clusterAccs (List.replicate n p) ρ =
        [{ sx := (n : ℚ) * p.1, sy := (n : ℚ) * p.2, n := n }] := by
  intro n
  induction n with
  | zero => intro h; exact absurd h (by omega)
  | succ k ih =>
    intro _
    rcases Nat.eq_zero_or_pos k with rfl | hk
    · simp [clusterAccs, cluster_step, placeInto]
    · have ihk := ih hk
      have hkq : ((k : ℚ)) ≠ 0 := Nat.cast_ne_zero.mpr (by omega)
      simp only [clusterAccs] at ihk ⊢
      rw [List.replicate_succ', List.foldl_append, ihk]
      simp only [List.foldl_cons, List.foldl_nil]
      have hcent : CAcc.centroid { sx := (k : ℚ) * p.1, sy := (k : ℚ) * p.2, n := k } = p := by
        simp [CAcc.centroid, mul_div_cancel_left₀ _ hkq]
      have hd : sqDist (p.1, p.2)
          (CAcc.centroid { sx := (k : ℚ) * p.1, sy := (k : ℚ) * p.2, n := k }) = 0 := by
        rw [hcent]
        simp [sqDist]
      simp [cluster_step, placeInto, hd, mul_self_nonneg, CAcc.merge, CAcc.mk.injEq]
      constructor <;> ring

/-- C7: clustering the empty input yields the empty output, and clustering
`n ≥ 1` identical points yields one cluster with that point as centroid and
member count `n`. -/
theorem cluster_points_edge_cases (ρ : ℚ) :
    cluster_points [] ρ = ([], []) ∧
    ∀ (n : ℕ) (p : Pt), 1 ≤ n →
      cluster_points (List.replicate n p) ρ = ([p], [n]) := by
  refine ⟨rfl, ?_⟩
  intro n p hn
  unfold cluster_points
  rw [clusterAccs_replicate p ρ n hn]
  have hnq : ((n : ℚ)) ≠ 0 := Nat.cast_ne_zero.mpr (by omega)
  simp [CAcc.centroid, mul_div_cancel_left₀ _ hnq]

/-- Witness for `cluster_points_edge_cases`: three copies of one point. -/
theorem cluster_points_edge_cases_witness :
    cluster_points (List.replicate 3 ((1/2 : ℚ), (1/3 : ℚ))) (1/5) =
      ([((1/2 : ℚ), (1/3 : ℚ))], [3]) :=
  (cluster_points_edge_cases (1/5)).2 3 (1/2, 1/3) (by decide)

/-- The inner placement loop finds exactly the first accumulator within range:
it equals a lookup of the least in-range index followed by a merge there. -/
theorem placeInto_eq_findIdx (r2 : ℚ) (p : Pt) :
    ∀ cs : List CAcc,
      placeInto r2 p.1 p.2 cs =
        (cs.findIdx? (fun c => decide (sqDist p c.centroid ≤ r2))).map
          (fun i => mergeAt cs i p) := by
  intro cs
  induction cs with
  | nil => rfl
  | cons c rest ih =>
    by_cases h : sqDist p c.centroid ≤ r2
    · simp [placeInto, h, List.findIdx?_cons, mergeAt, Prod.mk.eta]
    · simp only [placeInto, List.findIdx?_cons, List.findIdx?_succ]
      rw [if_neg ?hneg]
      case hneg => simpa [Prod.mk.eta] using h
      rw [if_neg (by simpa using h)]
      rw [ih]
      cases hfi : rest.findIdx? (fun c => decide (sqDist p c.centroid ≤ r2)) with
      | none => simp
      | some i => simp [mergeAt]

/-- One step of the source loop equals one step of the first-fit description. -/
theorem cluster_step_eq_firstFit (r2 : ℚ) (cs : List CAcc) (p : Pt) :
    cluster_step r2 cs p = cluster_step_firstFit r2 cs p := by
  unfold cluster_step cluster_step_firstFit
  rw [placeInto_eq_findIdx r2 p cs]
  cases h : cs.findIdx? (fun c => decide (sqDist p c.centroid ≤ r2)) with
  | none => simp
  | some i => simp

/-- C1 (amended): the clustering engine processes points one at a time and
merges each point into the earliest-created accumulator whose running centroid
is within the radius (squared-distance comparison, first fit in creation
order); only when no accumulator is within the radius does it start a new
accumulator.  It does not select the nearest accumulator. -/
theorem cluster_points_first_fit (pts : List Pt) (radius : ℚ) :
    clusterAccs pts radius = pts.foldl (cluster_step_firstFit (radius * radius)) [] := by
  have h : cluster_step (radius * radius) = cluster_step_firstFit (radius * radius) := by
    funext cs p
    exact cluster_step_eq_firstFit (radius * radius) cs p
  rw [clusterAccs, h]

/-- C1 fails as stated: with radius `1/5`, on the points `(0,0)`, `(3/10,0)`,
`(16/100,0)` the third point is within radius of both accumulators and
strictly nearer to the second, yet the source merges it into the first
(counts `[2, 1]`), while the claimed nearest-centroid rule would merge it into
the second (counts `[1, 2]`). -/
theorem cluster_nearest_counterexample :
    (cluster_points [(0, 0), (3/10, 0), (4/25, 0)] (1/5)).2 = [2, 1] ∧
    (cluster_points_nearest [(0, 0), (3/10, 0), (4/25, 0)] (1/5)).2 = [1, 2] := by
  constructor
  · norm_num [cluster_points, clusterAccs, cluster_step, placeInto, sqDist,
      CAcc.centroid, CAcc.merge]
  · norm_num [cluster_points_nearest, cluster_step_nearest, nearestIdx, mergeAt,
      sqDist, CAcc.centroid, CAcc.merge]

/-- Squared distances are non-negative. -/
theorem sqDist_nonneg (a b : Pt) : 0 ≤ sqDist a b := by
  unfold sqDist
  have h1 := mul_self_nonneg (a.1 - b.1)
  have h2 := mul_self_nonneg (a.2 - b.2)
  linarith

/-- The minimum squared distance to a list of centers is non-negative. -/
theorem minSqTo_nonneg (c : Pt) : ∀ prev : List Pt, 0 ≤ minSqTo c prev
  | [] => le_refl 0
  | [p] => sqDist_nonneg c p
  | p :: q :: rest => le_min (sqDist_nonneg c p) (minSqTo_nonneg c (q :: rest))

/-- For a non-negative threshold, comparing the Euclidean distance against the
threshold is the same as comparing the squared distance against its square. -/
theorem sqrt_ge_iff_sq_le (thr d : ℚ) (hthr : 0 ≤ thr) (hd : 0 ≤ d) :
    ((thr : ℝ) ≤ Real.sqrt (d : ℝ)) ↔ thr * thr ≤ d := by
  rw [Real.le_sqrt (by exact_mod_cast hthr) (by exact_mod_cast hd), sq]
  norm_cast

/-- C3: no markers come out of the very first frame (no previous snapshot) or
of an empty previous list, and a marker is emitted for a current centroid `c`
iff the previous list is non-empty and the Euclidean distance from `c` to its
nearest previous centroid is at least the movement threshold; every emitted
marker sits at `c` and expires at `now + ttl`. -/
theorem movement_markers_spec (now thr ttl : ℚ) (prev centers : List Pt)
    (hthr : 0 ≤ thr) :
    (∀ cs : List Pt, (frame_step now thr ttl none cs).2 = []) ∧
    movement_markers now thr ttl [] centers = [] ∧
    ∀ m : Marker, m ∈ movement_markers now thr ttl prev centers ↔
      (prev ≠ [] ∧ m.pos ∈ centers ∧
       ((thr : ℝ) ≤ Real.sqrt ((minSqTo m.pos prev : ℚ) : ℝ)) ∧
       m.expiry = now + ttl) := by
  refine ⟨?_, by simp [movement_markers], ?_⟩
  · intro cs
    by_cases h : cs = [] <;> simp [frame_step, h]
  intro m
  by_cases hp : prev = []
  · subst hp
    simp [movement_markers]
  · rw [movement_markers, if_neg hp]
    simp only [List.mem_map, List.mem_filter, decide_eq_true_eq]
    constructor
    · rintro ⟨c, ⟨hc, hq⟩, rfl⟩
      exact ⟨hp, hc, (sqrt_ge_iff_sq_le thr _ hthr (minSqTo_nonneg c prev)).mpr hq, rfl⟩
    · rintro ⟨-, hc, hs, he⟩
      refine ⟨m.pos, ⟨hc, (sqrt_ge_iff_sq_le thr _ hthr (minSqTo_nonneg m.pos prev)).mp hs⟩, ?_⟩
      cases m with
      | mk mp me =>
        simp only at he
        rw [he]

/-- Witness for `movement_markers_spec`: previous centroid `(1/2, 1/2)`,
current centroid `(58/100, 1/2)`, threshold `0`. -/
theorem movement_markers_spec_witness :
    ((⟨((58:ℚ)/100, (1:ℚ)/2), 0 + 6/10⟩ : Marker) ∈
        movement_markers 0 0 (6/10) [((1:ℚ)/2, (1:ℚ)/2)] [((58:ℚ)/100, (1:ℚ)/2)]) ↔
      (([((1:ℚ)/2, (1:ℚ)/2)] : List Pt) ≠ [] ∧
       (((58:ℚ)/100, (1:ℚ)/2) : Pt) ∈ ([((58:ℚ)/100, (1:ℚ)/2)] : List Pt) ∧
       (((0:ℚ) : ℝ) ≤
         Real.sqrt ((minSqTo (((58:ℚ)/100, (1:ℚ)/2) : Pt) [((1:ℚ)/2, (1:ℚ)/2)] : ℚ) : ℝ)) ∧
       (0 + 6/10 : ℚ) = 0 + 6/10) :=
  ((movement_markers_spec 0 0 (6/10) [((1:ℚ)/2, (1:ℚ)/2)] [((58:ℚ)/100, (1:ℚ)/2)]
      (le_refl 0)).2.2) ⟨((58:ℚ)/100, (1:ℚ)/2), 0 + 6/10⟩

open Classical in
/-- C5: the coordinate transform produces a point exactly when the distance is
non-zero, the angle lies in the admissible window, and the converted
coordinates land in `[0, span_x] × [0, span_y]`; the produced point is exactly
`(ox + r·cos θ, oy + r·sin θ)`; every rejected sample maps to `none`. -/
theorem transform_sample_spec (ox oy amin amax spanX spanY angle dist : ℝ) :
    transform_sample ox oy amin amax spanX spanY angle dist =
      if dist ≠ 0 ∧ amin ≤ angle ∧ angle ≤ amax ∧
         0 ≤ dist / 1000 * Real.cos (angle * (Real.pi / 180)) + ox ∧
         dist / 1000 * Real.cos (angle * (Real.pi / 180)) + ox ≤ spanX ∧
         0 ≤ dist / 1000 * Real.sin (angle * (Real.pi / 180)) + oy ∧
         dist / 1000 * Real.sin (angle * (Real.pi / 180)) + oy ≤ spanY then
        some (ox + dist / 1000 * Real.cos (angle * (Real.pi / 180)),
              oy + dist / 1000 * Real.sin (angle * (Real.pi / 180)))
      else none := by
  unfold transform_sample
  split_ifs with h1 h2 h3 h4 h5 h6 h7
  all_goals try rfl
  all_goals try (exfalso; tauto)
  all_goals simp [add_comm]
